import Mathlib

/-!
Verification of the synthetic trading-series generator and the dashboard
polling logic of the CMS admin dashboard
(`src/components/data-table-client.tsx`).

Modelling conventions:
* JS numbers are modelled as exact rationals `ℚ`; integer-valued quantities
  as `ℤ`.
* The ambient `Math.random()` source is modelled as an explicit stream
  `ℕ → ℚ` of draws, consumed in program order.  The stream is bundled with
  the assumption that from every position some later draw is nonzero, which
  is exactly the condition making the Box-Muller redraw loops terminate.
* The transcendental Box-Muller core `sqrt(-2 ln u) * cos(2 pi v)` is kept
  abstract as a parameter `bm : ℚ → ℚ → ℚ`: its value is irrational in
  general and no property below depends on it; every statement holds for
  every `bm`.
* JS `Date` values are modelled as integer day numbers (days since the Unix
  epoch); `setDate`-based day shifting is integer addition, and rendering a
  date applies the proleptic Gregorian civil-date conversion used by the
  ECMAScript runtime for local dates.
-/

namespace CMS

/-- JS `Math.round`: round half toward positive infinity. -/
def jsRound (q : ℚ) : ℤ := ⌊q + 1 / 2⌋

/-- JS `Math.floor`. -/
def jsFloor (q : ℚ) : ℤ := ⌊q⌋

/-- JS `Math.sign`. -/
def jsSign (q : ℚ) : ℚ := if 0 < q then 1 else if q < 0 then -1 else 0

/-- The source helper `clamp(n, min, max) = Math.max(min, Math.min(max, n))`
(binders renamed `lo`, `hi` to avoid shadowing the lattice operations). -/
def clamp (n lo hi : ℚ) : ℚ := max lo (min hi n)

/-- The source `clamp` specialised to the integer arguments it receives in
the active-user update (a rounded value clamped between rounded bounds). -/
def clampI (n lo hi : ℤ) : ℤ := max lo (min hi n)

/-- The source helper `FletcherVol(min, max) = min + Math.random() * (max - min)`,
with the single `Math.random()` draw passed explicitly as `u`. -/
def FletcherVol (lo hi u : ℚ) : ℚ := lo + u * (hi - lo)

/-- A model of the process-wide `Math.random()` source: the stream of draws
in program order, together with the guarantee that from every position some
later draw is nonzero (the condition under which the Box-Muller redraw
loops `while (u === 0) u = Math.random()` terminate). -/
structure RandStream where
  f : ℕ → ℚ
  hnz : ∀ k, ∃ n, f (k + n) ≠ 0

/-- `Math.random()` always returns a value in `[0, 1)`; streams modelling it
satisfy this predicate. -/
def UnitStream (rs : RandStream) : Prop := ∀ n, 0 ≤ rs.f n ∧ rs.f n < 1

/-- Position of the first nonzero draw at or after position `k`: the index at
which a `while (x === 0) x = Math.random()` redraw loop started at `k`
stops. -/
def firstNonzero (rs : RandStream) (k : ℕ) : ℕ := k + Nat.find (rs.hnz k)

/-- The source's Box-Muller `gaussian(mean, std)`: redraw `u` then `v` until
nonzero, then return `mean + sqrt(-2 ln u) * cos(2 pi v) * std`.  The
transcendental core is the abstract `bm`; the result is paired with the next
unconsumed stream index. -/
def gaussian (bm : ℚ → ℚ → ℚ) (rs : RandStream) (mean std : ℚ) (k : ℕ) : ℚ × ℕ :=
  let iu := firstNonzero rs k
  let iv := firstNonzero rs (iu + 1)
  (mean + bm (rs.f iu) (rs.f iv) * std, iv + 1)

/-- One `SeriesPoint` of the generated data: `{date, totalBalance, activeUsers}`. -/
structure SeriesPoint where
  date : String
  totalBalance : ℤ
  activeUsers : ℤ
deriving Repr, DecidableEq

/-- The generator's per-iteration mutable state (`vol`, `balance`,
`activeUsers`) plus the next unconsumed random-stream index. -/
structure GenState where
  vol : ℚ
  balance : ℚ
  activeUsers : ℤ
  idx : ℕ
deriving Repr, DecidableEq

/-- Volatility-clustering update (source lines 168-170): with the comparison
draw below 0.18, rescale by `0.85 + Math.random() * 0.7` and clamp to
`[0.003, 0.03]`; otherwise unchanged. -/
def stepVol (rs : RandStream) (k : ℕ) (v : ℚ) : ℚ :=
  if rs.f k < 0.18 then clamp (v * (0.85 + rs.f (k + 1) * 0.7)) 0.003 0.03 else v

/-- Stream index after the volatility-clustering update. -/
def stepVolIdx (rs : RandStream) (k : ℕ) : ℕ :=
  if rs.f k < 0.18 then k + 2 else k + 1

/-- Shock draw (source lines 173-176): with the comparison draw below 0.12,
a random sign times `0.008 + Math.random() * 0.02`; otherwise 0. -/
def stepShock (rs : RandStream) (k : ℕ) : ℚ :=
  if rs.f k < 0.12 then
    (if rs.f (k + 1) > 0.5 then 1 else -1) * (0.008 + rs.f (k + 2) * 0.02)
  else 0

/-- Stream index after the shock draw. -/
def stepShockIdx (rs : RandStream) (k : ℕ) : ℕ :=
  if rs.f k < 0.12 then k + 3 else k + 1

/-- One iteration of the generator loop body (source lines 164-202), threading
the mutable state; point emission is derived from the post-update state. -/
def genStep (bm : ℚ → ℚ → ℚ) (rs : RandStream) (drift anchor : ℚ) (base : ℤ)
    (st : GenState) : GenState :=
  let vol := stepVol rs st.idx st.vol
  let k1 := stepVolIdx rs st.idx
  let shock := stepShock rs k1
  let k2 := stepShockIdx rs k1
  let noise := (gaussian bm rs 0 vol k2).1
  let k3 := (gaussian bm rs 0 vol k2).2
  let dailyReturn := drift + noise + shock + (-((st.balance - anchor) / anchor)) * 0.08
  let balance := max 0 (st.balance * (1 + dailyReturn))
  let userShock := if shock ≠ 0 then jsSign shock * (1 + rs.f k3 * 2) else 0
  let k4 := if shock ≠ 0 then k3 + 1 else k3
  let activeUsers := clampI
    (jsRound ((st.activeUsers : ℚ) + (rs.f k4 - 0.5) * 6 + userShock))
    (max 5 (jsRound ((base : ℚ) * 0.6)))
    (jsRound ((base : ℚ) * 1.4))
  ⟨vol, balance, activeUsers, k4 + 1⟩

/-- The source `shiftDays(date, days)` on day-number dates. -/
def shiftDays (d : ℤ) (days : ℤ) : ℤ := d + days

/-- Proleptic Gregorian civil date `(year, month, day)` of a day number
(days since 1970-01-01); the conversion the ECMAScript runtime performs for
`getFullYear`/`getMonth`/`getDate`. -/
def civilFromDays (z : ℤ) : ℤ × ℤ × ℤ :=
  let w := z + 719468
  let era := w / 146097
  let doe := w - era * 146097
  let yoe := (doe - doe / 1460 + doe / 36524 - doe / 146096) / 365
  let y := yoe + era * 400
  let doy := doe - (365 * yoe + yoe / 4 - yoe / 100)
  let mp := (5 * doy + 2) / 153
  let d := doy - (153 * mp + 2) / 5 + 1
  let m := if mp < 10 then mp + 3 else mp - 9
  (if m ≤ 2 then y + 1 else y, m, d)

/-- Inverse civil-date conversion: day number of a `(year, month, day)`
triple (used to state that consecutive generated dates are consecutive
calendar days). -/
def daysFromCivil (y m d : ℤ) : ℤ :=
  let y1 := if m ≤ 2 then y - 1 else y
  let era := y1 / 400
  let yoe := y1 - era * 400
  let doy := (153 * (if 2 < m then m - 3 else m + 9) + 2) / 5 + d - 1
  let doe := yoe * 365 + yoe / 4 - yoe / 100 + doy
  era * 146097 + doe - 719468

/-- Decimal digit character (`n < 10`). -/
def digitChar (n : ℕ) : Char :=
  if n = 0 then '0' else if n = 1 then '1' else if n = 2 then '2'
  else if n = 3 then '3' else if n = 4 then '4' else if n = 5 then '5'
  else if n = 6 then '6' else if n = 7 then '7' else if n = 8 then '8' else '9'

/-- Decimal digit list of a natural number, most significant first: the
rendering the JS runtime uses for integer-valued numbers in template
strings. -/
def natDigits (n : ℕ) : List Char :=
  if n < 10 then [digitChar n]
  else natDigits (n / 10) ++ [digitChar (n % 10)]
decreasing_by exact Nat.div_lt_self (by omega) (by omega)

/-- Decimal rendering of an integer (JS number-to-string for integers). -/
def intChars (z : ℤ) : List Char :=
  if z < 0 then '-' :: natDigits (-z).toNat else natDigits z.toNat

/-- The source's `String(x).padStart(2, "0")`, on character lists. -/
def pad2 (z : ℤ) : List Char :=
  let l := intChars z
  if l.length < 2 then '0' :: l else l

/-- Character list of the source's `toISODate`: year unpadded, month and day
zero-padded to two characters, dash-separated. -/
def toISODateChars (z : ℤ) : List Char :=
  let c := civilFromDays z
  intChars c.1 ++ '-' :: pad2 c.2.1 ++ '-' :: pad2 c.2.2

/-- The source's `toISODate` on day-number dates. -/
def toISODate (z : ℤ) : String := ⟨toISODateChars z⟩

/-- The generator loop (source lines 164-202): `fuel` iterations remain,
`i` is the loop counter, one point pushed per iteration. -/
def genLoop (bm : ℚ → ℚ → ℚ) (rs : RandStream) (drift anchor : ℚ) (base : ℤ)
    (startDay : ℤ) : ℕ → ℕ → GenState → List SeriesPoint
  | 0, _, _ => []
  | Nat.succ fuel, i, st =>
    let st1 := genStep bm rs drift anchor base st
    ⟨toISODate (shiftDays startDay (i : ℤ)), jsRound st1.balance, st1.activeUsers⟩ ::
      genLoop bm rs drift anchor base startDay fuel (i + 1) st1

/-- Starting balance (source line 141): `(3e8 + U * 9e8) * (U > 0.5 ? 1 : 0.9)`. -/
def startBalanceOf (rs : RandStream) : ℚ :=
  (300000000 + rs.f 0 * 900000000) * (if rs.f 1 > 0.5 then 1 else 0.9)

/-- Active-user baseline (source line 145): `Math.floor(40 + U * 160)`. -/
def baseUsersOf (rs : RandStream) : ℤ := jsFloor (40 + rs.f 2 * 160)

/-- Per-day drift (source line 148): `(U - 0.45) * 0.0012`, drawn once. -/
def driftOf (rs : RandStream) : ℚ := (rs.f 3 - 0.45) * 0.0012

/-- Seeded volatility (source line 151): `FletcherVol(0.004, 0.014)`. -/
def seedVolOf (rs : RandStream) : ℚ := FletcherVol 0.004 0.014 (rs.f 4)

/-- Mean-reversion anchor (source line 156): `startBalance * (0.98 + U * 0.05)`. -/
def anchorOf (rs : RandStream) : ℚ := startBalanceOf rs * (0.98 + rs.f 5 * 0.05)

/-- The source `generateTradingSeries(days)`: seed the generation state from
the first six draws, then run the per-day loop from the date `days - 1` days
before `today` (the day number of `new Date()` at generation time).  The JS
`for (let i = 0; i < days; i++)` loop runs `days.toNat` times. -/
def generateTradingSeries (bm : ℚ → ℚ → ℚ) (rs : RandStream) (today : ℤ)
    (days : ℤ) : List SeriesPoint :=
  genLoop bm rs (driftOf rs) (anchorOf rs) (baseUsersOf rs)
    (shiftDays today (-(days - 1))) days.toNat 0
    ⟨seedVolOf rs, startBalanceOf rs, baseUsersOf rs, 6⟩

/-! ### Decimal parsing, format predicates and further model definitions -/

/-- Numeric value of a decimal digit character. -/
def digitVal (c : Char) : ℕ := c.toNat - 48

/-- Reads a decimal digit list back into the number it renders (used to
prove the rendering injective). -/
def parseNat (l : List Char) : ℕ := l.foldl (fun a c => a * 10 + digitVal c) 0

/-- Decimal digit test. -/
def isDigitChar (c : Char) : Bool := 48 ≤ c.toNat && c.toNat ≤ 57

/-- The spec's `YYYY-MM-DD` shape (ISO 8601 calendar date): four digits,
dash, two digits, dash, two digits. -/
def isISOFormat (s : String) : Bool :=
  match s.data with
  | [y1, y2, y3, y4, a, m1, m2, b, d1, d2] =>
      isDigitChar y1 && isDigitChar y2 && isDigitChar y3 && isDigitChar y4 &&
      (a == '-') && isDigitChar m1 && isDigitChar m2 && (b == '-') &&
      isDigitChar d1 && isDigitChar d2
  | _ => false

/-- Following the spec's words (section 4.1, steps 4-6): compose the daily
return as `drift + noise + shock`, subtract the mean-reversion term
`0.08 * ((balance - anchor) / anchor)`, and clamp the updated balance at
zero.  Stated separately from the source translation so their agreement can
be proved. -/
def specBalanceUpdate (drift noise shock balance anchor : ℚ) : ℚ :=
  max 0 (balance * (1 + (drift + noise + shock - 0.08 * ((balance - anchor) / anchor))))

/-- The constant stream of one-half draws: a concrete `Math.random` model
used to instantiate hypotheses at concrete inputs. -/
def halfStream : RandStream :=
  ⟨fun _ => 1 / 2, fun k => ⟨0, by norm_num⟩⟩

/-- A concrete stand-in for the transcendental Box-Muller core. -/
def bmZero : ℚ → ℚ → ℚ := fun _ _ => 0

/-- Actions the data-table client's mount effect performs (source lines
35-53): `load()` fetches `/api/user/table`, carrying the effect's
abort-controller signal when `withSignal` is set; `setInterval(load, ms)`
schedules a repeating load. -/
inductive EffectAction where
  | fetchTable (withSignal : Bool)
  | scheduleInterval (ms : ℕ)
deriving Repr, DecidableEq

/-- Setup of the mount effect in program order (source lines 50-53): one
immediate signal-carrying load, then a 30000 ms interval. -/
def dataTableEffectSetup : List EffectAction :=
  [EffectAction.fetchTable true, EffectAction.scheduleInterval 30000]

/-- The cleanup steps the effect returns (source lines 55-59). -/
inductive CleanupAction where
  | unsetMounted
  | abortFetch
  | clearTimer
deriving Repr, DecidableEq

/-- Cleanup of the effect in program order: unset the mounted flag, abort
the in-flight fetch through the controller, clear the interval. -/
def dataTableEffectCleanup : List CleanupAction :=
  [CleanupAction.unsetMounted, CleanupAction.abortFetch, CleanupAction.clearTimer]

/-- Idealised timer semantics of one setup action for a mount at time `t0`
that is still mounted at time `t` (milliseconds): an immediate load runs at
`t0`; an interval of period `ms` fires at `t0 + ms`, `t0 + 2 ms`, ... while
mounted. -/
def actionLoadTimes (t0 t : ℕ) : EffectAction → List ℕ
  | EffectAction.fetchTable _ => [t0]
  | EffectAction.scheduleInterval ms =>
      (List.range ((t - t0) / ms)).map fun j => t0 + ms * (j + 1)

/-- All load times a setup action list produces in `[t0, t]`. -/
def loadTimes (acts : List EffectAction) (t0 t : ℕ) : List ℕ :=
  acts.flatMap (actionLoadTimes t0 t)

/-- The observable state the effect cleanup acts on. -/
structure EffectObs where
  mounted : Bool
  aborted : Bool
  timerActive : Bool
deriving Repr, DecidableEq

/-- One cleanup step. -/
def applyCleanup (s : EffectObs) : CleanupAction → EffectObs
  | CleanupAction.unsetMounted => { s with mounted := false }
  | CleanupAction.abortFetch => { s with aborted := true }
  | CleanupAction.clearTimer => { s with timerActive := false }

/-- Run a cleanup action list in order. -/
def runCleanup (acts : List CleanupAction) (s : EffectObs) : EffectObs :=
  acts.foldl applyCleanup s

/-! ### Basic properties of the generator loop -/

/-- The half stream is a `[0, 1)` stream. -/
theorem halfStream_unit : UnitStream halfStream :=
  fun _ => ⟨by norm_num [halfStream], by norm_num [halfStream]⟩

/-- The generator loop emits exactly one point per remaining iteration. -/
theorem genLoop_length (bm : ℚ → ℚ → ℚ) (rs : RandStream) (drift anchor : ℚ)
    (base startDay : ℤ) :
    ∀ fuel i st, (genLoop bm rs drift anchor base startDay fuel i st).length = fuel := by
  intro fuel
  induction fuel with
  | zero => intro i st; rfl
  | succ n ih => intro i st; simp [genLoop, ih]

/-- C1: for every positive integer `days`, `generateTradingSeries days`
terminates (it is a total function of the model) and returns a sequence of
`SeriesPoint` of length exactly `days`, one point per loop iteration. -/
theorem generate_length (bm : ℚ → ℚ → ℚ) (rs : RandStream) (today days : ℤ)
    (h : 1 ≤ days) :
    ((generateTradingSeries bm rs today days).length : ℤ) = days := by
  simp only [generateTradingSeries, genLoop_length]
  omega

/-- Witness for C1 at `days = 7`. -/
theorem generate_length_witness :
    ((generateTradingSeries bmZero halfStream 20737 7).length : ℤ) = 7 :=
  generate_length bmZero halfStream 20737 7 (by norm_num)

/-- C10: for every `days ≤ 0` the loop body never runs and the generator
returns the empty sequence (no defensive floor of 1 is applied). -/
theorem generate_nonpos_empty (bm : ℚ → ℚ → ℚ) (rs : RandStream)
    (today days : ℤ) (h : days ≤ 0) :
    generateTradingSeries bm rs today days = [] := by
  simp only [generateTradingSeries]
  rw [Int.toNat_eq_zero.mpr h]
  rfl

/-- Witness for C10 at `days = -3`. -/
theorem generate_nonpos_empty_witness :
    generateTradingSeries bmZero halfStream 20737 (-3) = [] :=
  generate_nonpos_empty bmZero halfStream 20737 (-3) (by norm_num)

/-- Rounding a non-negative rational the JS way stays non-negative. -/
theorem jsRound_nonneg (q : ℚ) (h : 0 ≤ q) : 0 ≤ jsRound q := by
  have : (0 : ℚ) ≤ q + 1 / 2 := by linarith
  exact Int.floor_nonneg.mpr this

/-- The balance produced by one loop iteration is clamped at zero. -/
theorem genStep_balance_nonneg (bm : ℚ → ℚ → ℚ) (rs : RandStream)
    (drift anchor : ℚ) (base : ℤ) (st : GenState) :
    0 ≤ (genStep bm rs drift anchor base st).balance := by
  simp only [genStep]
  exact le_max_left 0 _

/-- Every point the loop emits has a non-negative rounded balance. -/
theorem genLoop_totalBalance_nonneg (bm : ℚ → ℚ → ℚ) (rs : RandStream)
    (drift anchor : ℚ) (base startDay : ℤ) :
    ∀ fuel i st, List.Forall (fun p => 0 ≤ p.totalBalance)
      (genLoop bm rs drift anchor base startDay fuel i st) := by
  intro fuel
  induction fuel with
  | zero => intro i st; simp [genLoop]
  | succ n ih =>
    intro i st
    simp only [genLoop, List.forall_cons]
    exact ⟨jsRound_nonneg _ (genStep_balance_nonneg bm rs drift anchor base st), ih _ _⟩

/-- C2: on any random draws, every point emitted by the generator has a
non-negative `totalBalance`: the update `balance = max(0, balance * (1 +
dailyReturn))` clamps at 0 and rounding preserves non-negativity. -/
theorem generate_totalBalance_nonneg (bm : ℚ → ℚ → ℚ) (rs : RandStream)
    (today days : ℤ) :
    List.Forall (fun p => 0 ≤ p.totalBalance)
      (generateTradingSeries bm rs today days) :=
  genLoop_totalBalance_nonneg bm rs _ _ _ _ days.toNat 0 _

/-! ### Active-user bounds -/

/-- The integer clamp lands between its bounds whenever they are ordered. -/
theorem clampI_mem (n lo hi : ℤ) (h : lo ≤ hi) :
    lo ≤ clampI n lo hi ∧ clampI n lo hi ≤ hi :=
  ⟨le_max_left _ _, max_le h (min_le_left _ _)⟩

/-- Under a `[0, 1)` stream the seeded active-user baseline is an integer in
`[40, 200)`. -/
theorem baseUsers_bounds (rs : RandStream) (hu : UnitStream rs) :
    40 ≤ baseUsersOf rs ∧ baseUsersOf rs < 200 := by
  have h := hu 2
  constructor
  · exact Int.le_floor.mpr (by push_cast; nlinarith [h.1])
  · exact Int.floor_lt.mpr (by push_cast; nlinarith [h.2])

/-- The active-user clamp bounds are ordered once the baseline is at least
40. -/
theorem activeUsers_lo_le_hi (base : ℤ) (h : 40 ≤ base) :
    max 5 (jsRound ((base : ℚ) * 0.6)) ≤ jsRound ((base : ℚ) * 1.4) := by
  have hb : (40 : ℚ) ≤ (base : ℚ) := by exact_mod_cast h
  apply max_le
  · exact Int.le_floor.mpr (by push_cast; nlinarith)
  · exact Int.floor_le_floor (by nlinarith)

/-- One loop iteration always clamps the active-user count between the
bounds. -/
theorem genStep_activeUsers_bounds (bm : ℚ → ℚ → ℚ) (rs : RandStream)
    (drift anchor : ℚ) (base : ℤ) (st : GenState) (h : 40 ≤ base) :
    max 5 (jsRound ((base : ℚ) * 0.6)) ≤ (genStep bm rs drift anchor base st).activeUsers ∧
    (genStep bm rs drift anchor base st).activeUsers ≤ jsRound ((base : ℚ) * 1.4) := by
  simp only [genStep]
  exact clampI_mem _ _ _ (activeUsers_lo_le_hi base h)

/-- Every point the loop emits keeps the active-user count between the
bounds. -/
theorem genLoop_activeUsers_bounds (bm : ℚ → ℚ → ℚ) (rs : RandStream)
    (drift anchor : ℚ) (base startDay : ℤ) (h : 40 ≤ base) :
    ∀ fuel i st, List.Forall (fun p =>
        max 5 (jsRound ((base : ℚ) * 0.6)) ≤ p.activeUsers ∧
        p.activeUsers ≤ jsRound ((base : ℚ) * 1.4))
      (genLoop bm rs drift anchor base startDay fuel i st) := by
  intro fuel
  induction fuel with
  | zero => intro i st; simp [genLoop]
  | succ n ih =>
    intro i st
    simp only [genLoop, List.forall_cons]
    exact ⟨genStep_activeUsers_bounds bm rs drift anchor base st h, ih _ _⟩

/-- C3: under a `[0, 1)` random stream, the seeded baseline `base` is an
integer in `[40, 200)` and every emitted `activeUsers` lies within
`[max(5, round(0.6 * base)), round(1.4 * base)]`, on any draws. -/
theorem generate_activeUsers_bounds (bm : ℚ → ℚ → ℚ) (rs : RandStream)
    (today days : ℤ) (hu : UnitStream rs) :
    (40 ≤ baseUsersOf rs ∧ baseUsersOf rs < 200) ∧
    List.Forall (fun p =>
        max 5 (jsRound ((baseUsersOf rs : ℚ) * 0.6)) ≤ p.activeUsers ∧
        p.activeUsers ≤ jsRound ((baseUsersOf rs : ℚ) * 1.4))
      (generateTradingSeries bm rs today days) := by
  have hb := baseUsers_bounds rs hu
  exact ⟨hb, genLoop_activeUsers_bounds bm rs _ _ _ _ hb.1 days.toNat 0 _⟩

/-- Witness for C3 at the constant one-half stream. -/
theorem generate_activeUsers_bounds_witness :
    (40 ≤ baseUsersOf halfStream ∧ baseUsersOf halfStream < 200) ∧
    List.Forall (fun p =>
        max 5 (jsRound ((baseUsersOf halfStream : ℚ) * 0.6)) ≤ p.activeUsers ∧
        p.activeUsers ≤ jsRound ((baseUsersOf halfStream : ℚ) * 1.4))
      (generateTradingSeries bmZero halfStream 20737 3) :=
  generate_activeUsers_bounds bmZero halfStream 20737 3 halfStream_unit

/-! ### The balance update against the spec's algorithm -/

/-- C5: one iteration of the source loop updates the balance exactly as the
spec's steps 4-6 prescribe, where the noise is the Box-Muller sample drawn
at the current volatility and the shock is the iteration's shock draw. -/
theorem genStep_balance_spec (bm : ℚ → ℚ → ℚ) (rs : RandStream)
    (drift anchor : ℚ) (base : ℤ) (st : GenState) :
    (genStep bm rs drift anchor base st).balance =
      specBalanceUpdate drift
        (gaussian bm rs 0 (stepVol rs st.idx st.vol) (stepShockIdx rs (stepVolIdx rs st.idx))).1
        (stepShock rs (stepVolIdx rs st.idx)) st.balance anchor := by
  simp only [genStep, specBalanceUpdate]
  congr 1
  ring

/-! ### The Box-Muller guard -/

/-- C6: the redraw guards of the source's `gaussian` select draws that are
nonzero, so under a `[0, 1)` stream both selected uniforms are strictly
positive (the logarithm argument in `sqrt(-2 ln u) * cos(2 pi v)` is
strictly positive), and `gaussian` computes with exactly those draws. -/
theorem gaussian_log_arg_pos (bm : ℚ → ℚ → ℚ) (rs : RandStream)
    (mean std : ℚ) (k : ℕ) (hu : UnitStream rs) :
    0 < rs.f (firstNonzero rs k) ∧ rs.f (firstNonzero rs k) < 1 ∧
    0 < rs.f (firstNonzero rs (firstNonzero rs k + 1)) ∧
    rs.f (firstNonzero rs (firstNonzero rs k + 1)) < 1 ∧
    gaussian bm rs mean std k =
      (mean + bm (rs.f (firstNonzero rs k))
          (rs.f (firstNonzero rs (firstNonzero rs k + 1))) * std,
        firstNonzero rs (firstNonzero rs k + 1) + 1) := by
  have hu1 : rs.f (firstNonzero rs k) ≠ 0 := Nat.find_spec (rs.hnz k)
  have hu2 : rs.f (firstNonzero rs (firstNonzero rs k + 1)) ≠ 0 :=
    Nat.find_spec (rs.hnz (firstNonzero rs k + 1))
  refine ⟨lt_of_le_of_ne (hu _).1 (Ne.symm hu1), (hu _).2,
    lt_of_le_of_ne (hu _).1 (Ne.symm hu2), (hu _).2, rfl⟩

/-- Witness for C6 at the constant one-half stream. -/
theorem gaussian_log_arg_pos_witness :
    0 < halfStream.f (firstNonzero halfStream 0) ∧
    halfStream.f (firstNonzero halfStream 0) < 1 ∧
    0 < halfStream.f (firstNonzero halfStream (firstNonzero halfStream 0 + 1)) ∧
    halfStream.f (firstNonzero halfStream (firstNonzero halfStream 0 + 1)) < 1 ∧
    gaussian bmZero halfStream 0 1 0 =
      (0 + bmZero (halfStream.f (firstNonzero halfStream 0))
          (halfStream.f (firstNonzero halfStream (firstNonzero halfStream 0 + 1))) * 1,
        firstNonzero halfStream (firstNonzero halfStream 0 + 1) + 1) :=
  gaussian_log_arg_pos bmZero halfStream 0 1 0 halfStream_unit

/-! ### The volatility invariant -/

/-- C7: under a `[0, 1)` stream the volatility is seeded inside
`[0.004, 0.014]`, and each loop iteration keeps it inside `[0.003, 0.03]`:
a jump rescales and re-clamps into that interval and no jump leaves it
unchanged, so the bound is an invariant of every iteration. -/
theorem volatility_invariant (bm : ℚ → ℚ → ℚ) (rs : RandStream)
    (drift anchor : ℚ) (base : ℤ) (hu : UnitStream rs) :
    (0.004 ≤ seedVolOf rs ∧ seedVolOf rs ≤ 0.014) ∧
    ∀ st : GenState, 0.003 ≤ st.vol → st.vol ≤ 0.03 →
      0.003 ≤ (genStep bm rs drift anchor base st).vol ∧
      (genStep bm rs drift anchor base st).vol ≤ 0.03 := by
  constructor
  · have h := hu 4
    constructor
    · simp only [seedVolOf, FletcherVol]
      nlinarith [h.1]
    · simp only [seedVolOf, FletcherVol]
      nlinarith [h.2]
  · intro st h1 h2
    simp only [genStep, stepVol]
    split
    · exact ⟨le_max_left _ _, max_le (by norm_num) (min_le_left _ _)⟩
    · exact ⟨h1, h2⟩

/-- Witness for C7 at the constant one-half stream and a concrete state. -/
theorem volatility_invariant_witness :
    (0.004 ≤ seedVolOf halfStream ∧ seedVolOf halfStream ≤ 0.014) ∧
    (0.003 ≤ (genStep bmZero halfStream 0 1 120 ⟨1 / 100, 100, 50, 6⟩).vol ∧
      (genStep bmZero halfStream 0 1 120 ⟨1 / 100, 100, 50, 6⟩).vol ≤ 0.03) :=
  ⟨(volatility_invariant bmZero halfStream 0 1 120 halfStream_unit).1,
    (volatility_invariant bmZero halfStream 0 1 120 halfStream_unit).2
      ⟨1 / 100, 100, 50, 6⟩ (by norm_num) (by norm_num)⟩

/-! ### The drift -/

/-- C8: the per-day drift is fixed once per call as `(U - 0.45) * 0.0012`
for the fourth uniform draw `U`, and under a `[0, 1)` stream it lies in the
interval `[-0.00225, 0.00126]` stated by the spec. -/
theorem drift_bounds (rs : RandStream) (hu : UnitStream rs) :
    driftOf rs = (rs.f 3 - 0.45) * 0.0012 ∧
    -0.00225 ≤ driftOf rs ∧ driftOf rs ≤ 0.00126 := by
  have h := hu 3
  refine ⟨rfl, ?_, ?_⟩
  · simp only [driftOf]
    nlinarith [h.1]
  · simp only [driftOf]
    nlinarith [h.2]

/-- Witness for C8 at the constant one-half stream. -/
theorem drift_bounds_witness :
    driftOf halfStream = (halfStream.f 3 - 0.45) * 0.0012 ∧
    -0.00225 ≤ driftOf halfStream ∧ driftOf halfStream ≤ 0.00126 :=
  drift_bounds halfStream halfStream_unit

/-! ### The calendar conversion -/

set_option maxHeartbeats 1600000

/-- Year-of-era bounds: the era-relative year the civil conversion computes
lies in `[0, 399]`. -/
theorem yoe_bounds (doe : ℤ) (h1 : 0 ≤ doe) (h2 : doe ≤ 146096) :
    0 ≤ (doe - doe / 1460 + doe / 36524 - doe / 146096) / 365 ∧
    (doe - doe / 1460 + doe / 36524 - doe / 146096) / 365 ≤ 399 := by
  omega

/-- Day-of-year bounds: the day offset within the computed year lies in
`[0, 365]`. -/
theorem doy_bounds (doe : ℤ) (h1 : 0 ≤ doe) (h2 : doe ≤ 146096) :
    0 ≤ doe - (365 * ((doe - doe / 1460 + doe / 36524 - doe / 146096) / 365) +
        ((doe - doe / 1460 + doe / 36524 - doe / 146096) / 365) / 4 -
        ((doe - doe / 1460 + doe / 36524 - doe / 146096) / 365) / 100) ∧
    doe - (365 * ((doe - doe / 1460 + doe / 36524 - doe / 146096) / 365) +
        ((doe - doe / 1460 + doe / 36524 - doe / 146096) / 365) / 4 -
        ((doe - doe / 1460 + doe / 36524 - doe / 146096) / 365) / 100) ≤ 365 := by
  set b := (doe - doe / 1460 + doe / 36524 - doe / 146096) / 365 with hb
  have hb0 : 0 ≤ b := by rw [hb]; omega
  have hb399 : b ≤ 399 := by rw [hb]; omega
  interval_cases b <;> omega

/-- Month and day of the civil conversion are a valid calendar month/day. -/
theorem civil_mday_bounds (z : ℤ) :
    1 ≤ (civilFromDays z).2.1 ∧ (civilFromDays z).2.1 ≤ 12 ∧
    1 ≤ (civilFromDays z).2.2 ∧ (civilFromDays z).2.2 ≤ 31 := by
  have h1 : 0 ≤ z + 719468 - (z + 719468) / 146097 * 146097 := by omega
  have h2 : z + 719468 - (z + 719468) / 146097 * 146097 ≤ 146096 := by omega
  have hd := doy_bounds _ h1 h2
  simp only [civilFromDays]
  split_ifs <;> omega

/-- For day numbers between 1970-01-01 and 9999-12-31 the civil year is a
four-digit year. -/
theorem civil_year_bounds (z : ℤ) (h0 : 0 ≤ z) (hV : z ≤ 2932896) :
    1600 ≤ (civilFromDays z).1 ∧ (civilFromDays z).1 ≤ 9999 := by
  have h1 : 0 ≤ z + 719468 - (z + 719468) / 146097 * 146097 := by omega
  have h2 : z + 719468 - (z + 719468) / 146097 * 146097 ≤ 146096 := by omega
  have hy := yoe_bounds _ h1 h2
  have hd := doy_bounds _ h1 h2
  simp only [civilFromDays]
  split_ifs <;> omega

/-- The civil conversion and its inverse round-trip on every day number. -/
theorem civil_roundtrip (z : ℤ) :
    daysFromCivil (civilFromDays z).1 (civilFromDays z).2.1 (civilFromDays z).2.2 = z := by
  simp only [civilFromDays, daysFromCivil]
  set w := z + 719468 with hw
  set era := w / 146097 with hera
  set doe := w - era * 146097 with hdoe
  set yoe := (doe - doe / 1460 + doe / 36524 - doe / 146096) / 365 with hyoe
  set doy := doe - (365 * yoe + yoe / 4 - yoe / 100) with hdoy
  set mp := (5 * doy + 2) / 153 with hmp
  have hdoe0 : 0 ≤ doe := by omega
  have hdoe1 : doe ≤ 146096 := by omega
  have hy := yoe_bounds doe hdoe0 hdoe1
  have hd := doy_bounds doe hdoe0 hdoe1
  rw [← hyoe] at hy
  rw [← hyoe, ← hdoy] at hd
  have hm : 0 ≤ mp ∧ mp ≤ 11 := by omega
  split_ifs <;>
    (try omega) <;>
    (try rw [(by ring : yoe + era * 400 + 1 - 1 = yoe + era * 400)]) <;>
    rw [(by omega : (yoe + era * 400) / 400 = era)] <;>
    rw [(by ring : yoe + era * 400 - era * 400 = yoe)] <;>
    (try rw [(by ring : mp + 3 - 3 = mp)]) <;>
    (try rw [(by ring : mp - 9 + 9 = mp)]) <;>
    omega

/-- The civil conversion is injective. -/
theorem civil_inj (z1 z2 : ℤ) (h : civilFromDays z1 = civilFromDays z2) : z1 = z2 := by
  have r1 := civil_roundtrip z1
  have r2 := civil_roundtrip z2
  rw [h] at r1
  rw [r2] at r1
  exact r1.symm

/-! ### Decimal rendering -/

/-- One-step unfolding of the digit rendering. -/
theorem natDigits_eq (n : ℕ) :
    natDigits n = if n < 10 then [digitChar n]
      else natDigits (n / 10) ++ [digitChar (n % 10)] := by
  rw [natDigits]

/-- The digit characters carry their numeric value. -/
theorem digitVal_digitChar (n : ℕ) (h : n < 10) : digitVal (digitChar n) = n := by
  interval_cases n <;> rfl

/-- The digit characters are decimal digits. -/
theorem isDigitChar_digitChar (n : ℕ) (h : n < 10) : isDigitChar (digitChar n) = true := by
  interval_cases n <;> rfl

/-- Folding the parser over a rendered number recovers the number. -/
theorem natDigits_foldl (n : ℕ) :
    ∀ a : ℕ, (natDigits n).foldl (fun a c => a * 10 + digitVal c) a
      = a * 10 ^ (natDigits n).length + n := by
  induction n using Nat.strong_induction_on with
  | _ n ih =>
    intro a
    rw [natDigits_eq]
    by_cases h : n < 10
    · simp [h, digitVal_digitChar n h]
    · rw [if_neg h]
      have hlt : n / 10 < n := Nat.div_lt_self (by omega) (by omega)
      rw [List.foldl_append, ih (n / 10) hlt a]
      simp only [List.foldl_cons, List.foldl_nil, List.length_append, List.length_cons,
        List.length_nil, digitVal_digitChar (n % 10) (Nat.mod_lt n (by omega))]
      rw [pow_succ]
      have key : ∀ p : ℕ, (a * p + n / 10) * 10 + n % 10 = a * (p * 10) + n := by
        intro p
        have hdm : n / 10 * 10 + n % 10 = n := by omega
        calc (a * p + n / 10) * 10 + n % 10
            = a * (p * 10) + (n / 10 * 10 + n % 10) := by ring
          _ = a * (p * 10) + n := by rw [hdm]
      exact key _

/-- Parsing inverts rendering. -/
theorem parseNat_natDigits (n : ℕ) : parseNat (natDigits n) = n := by
  have := natDigits_foldl n 0
  simpa [parseNat] using this

/-- A rendered number has at least one digit. -/
theorem natDigits_length_pos (n : ℕ) : 1 ≤ (natDigits n).length := by
  rw [natDigits_eq]
  by_cases h : n < 10 <;> simp [h]

/-- One digit below 10. -/
theorem natDigits_len1 (n : ℕ) (h : n < 10) : (natDigits n).length = 1 := by
  rw [natDigits_eq, if_pos h]
  rfl

/-- Two digits below 100. -/
theorem natDigits_len2 (n : ℕ) (h1 : 10 ≤ n) (h2 : n < 100) : (natDigits n).length = 2 := by
  rw [natDigits_eq, if_neg (by omega)]
  simp [natDigits_len1 (n / 10) (by omega)]

/-- Three digits below 1000. -/
theorem natDigits_len3 (n : ℕ) (h1 : 100 ≤ n) (h2 : n < 1000) : (natDigits n).length = 3 := by
  rw [natDigits_eq, if_neg (by omega)]
  simp [natDigits_len2 (n / 10) (by omega) (by omega)]

/-- Four digits below 10000. -/
theorem natDigits_len4 (n : ℕ) (h1 : 1000 ≤ n) (h2 : n < 10000) : (natDigits n).length = 4 := by
  rw [natDigits_eq, if_neg (by omega)]
  simp [natDigits_len3 (n / 10) (by omega) (by omega)]

/-- Every rendered character is a decimal digit. -/
theorem natDigits_all_digits (n : ℕ) : ∀ c ∈ natDigits n, isDigitChar c = true := by
  induction n using Nat.strong_induction_on with
  | _ n ih =>
    rw [natDigits_eq]
    by_cases h : n < 10
    · simpa [h] using isDigitChar_digitChar n h
    · rw [if_neg h]
      intro c hc
      rcases List.mem_append.mp hc with hc | hc
      · exact ih (n / 10) (Nat.div_lt_self (by omega) (by omega)) c hc
      · simp only [List.mem_singleton] at hc
        subst hc
        exact isDigitChar_digitChar _ (Nat.mod_lt n (by omega))

/-- Rendering a non-negative integer takes the digit branch. -/
theorem intChars_nonneg (z : ℤ) (h : 0 ≤ z) : intChars z = natDigits z.toNat := by
  rw [intChars, if_neg (by omega)]

/-- The zero-padded rendering of a value in `[0, 99]` has exactly two
characters. -/
theorem pad2_length (v : ℤ) (h0 : 0 ≤ v) (h1 : v ≤ 99) : (pad2 v).length = 2 := by
  have hl : (natDigits v.toNat).length ≤ 2 := by
    by_cases h : v.toNat < 10
    · rw [natDigits_len1 _ h]; omega
    · rw [natDigits_len2 _ (by omega) (by omega)]
  have hp : 1 ≤ (natDigits v.toNat).length := natDigits_length_pos _
  rw [pad2, intChars_nonneg v h0]
  by_cases h : (natDigits v.toNat).length < 2
  · simp only [h, if_pos, List.length_cons]
    omega
  · simp only [h, if_neg, if_false]
    omega

/-- A leading zero does not change the parsed value. -/
theorem parseNat_cons_zero (l : List Char) : parseNat ('0' :: l) = parseNat l := by
  simp [parseNat, digitVal]

/-- Parsing inverts the padded rendering. -/
theorem parseNat_pad2 (v : ℤ) (h0 : 0 ≤ v) : parseNat (pad2 v) = v.toNat := by
  rw [pad2, intChars_nonneg v h0]
  by_cases h : (natDigits v.toNat).length < 2
  · rw [if_pos h, parseNat_cons_zero, parseNat_natDigits]
  · rw [if_neg h, parseNat_natDigits]

/-- The padded rendering is injective on non-negative values. -/
theorem pad2_inj (v1 v2 : ℤ) (h1 : 0 ≤ v1) (h2 : 0 ≤ v2) (h : pad2 v1 = pad2 v2) :
    v1 = v2 := by
  have := parseNat_pad2 v1 h1
  rw [h, parseNat_pad2 v2 h2] at this
  omega

/-- The digit rendering is injective. -/
theorem natDigits_inj (a b : ℕ) (h : natDigits a = natDigits b) : a = b := by
  have := parseNat_natDigits a
  rw [h, parseNat_natDigits b] at this
  omega

/-- Padded renderings of non-negative values consist of digits. -/
theorem pad2_all_digits (v : ℤ) (h0 : 0 ≤ v) : ∀ c ∈ pad2 v, isDigitChar c = true := by
  rw [pad2, intChars_nonneg v h0]
  intro c hc
  by_cases h : (natDigits v.toNat).length < 2
  · rw [if_pos h] at hc
    rcases List.mem_cons.mp hc with hc | hc
    · subst hc; rfl
    · exact natDigits_all_digits _ c hc
  · rw [if_neg h] at hc
    exact natDigits_all_digits _ c hc

/-! ### ISO date strings -/

/-- Two-element shape of a length-two list. -/
theorem len2_shape (l : List Char) (h : l.length = 2) : ∃ a b, l = [a, b] :=
  List.length_eq_two.mp h

/-- Four-element shape of a length-four list. -/
theorem len4_shape (l : List Char) (h : l.length = 4) : ∃ a b c d, l = [a, b, c, d] := by
  rcases l with _ | ⟨a, t⟩
  · simp at h
  · rcases List.length_eq_three.mp (by simpa using h) with ⟨b, c, d, rfl⟩
    exact ⟨a, b, c, d, rfl⟩

/-- Distinct day numbers in the supported range render to distinct ISO
strings. -/
theorem toISODate_inj (z1 z2 : ℤ) (ha1 : 0 ≤ z1) (hb1 : z1 ≤ 2932896)
    (ha2 : 0 ≤ z2) (hb2 : z2 ≤ 2932896) (h : toISODate z1 = toISODate z2) :
    z1 = z2 := by
  have hmd1 := civil_mday_bounds z1
  have hmd2 := civil_mday_bounds z2
  have hy1 := civil_year_bounds z1 ha1 hb1
  have hy2 := civil_year_bounds z2 ha2 hb2
  have hchars : toISODateChars z1 = toISODateChars z2 := congrArg String.data h
  apply civil_inj
  rcases hc1 : civilFromDays z1 with ⟨y1, m1, d1⟩
  rcases hc2 : civilFromDays z2 with ⟨y2, m2, d2⟩
  rw [hc1] at hmd1 hy1
  rw [hc2] at hmd2 hy2
  simp only at hmd1 hy1 hmd2 hy2
  simp only [toISODateChars, hc1, hc2] at hchars
  rcases len4_shape _ (natDigits_len4 y1.toNat (by omega) (by omega)) with ⟨a1, a2, a3, a4, hA1⟩
  rcases len4_shape _ (natDigits_len4 y2.toNat (by omega) (by omega)) with ⟨a5, a6, a7, a8, hA2⟩
  rcases len2_shape _ (pad2_length m1 (by omega) (by omega)) with ⟨b1, b2, hB1⟩
  rcases len2_shape _ (pad2_length m2 (by omega) (by omega)) with ⟨b3, b4, hB2⟩
  rcases len2_shape _ (pad2_length d1 (by omega) (by omega)) with ⟨c1, c2, hC1⟩
  rcases len2_shape _ (pad2_length d2 (by omega) (by omega)) with ⟨c3, c4, hC2⟩
  rw [intChars_nonneg y1 (by omega), intChars_nonneg y2 (by omega),
    hA1, hA2, hB1, hB2, hC1, hC2] at hchars
  simp only [List.cons_append, List.nil_append, List.cons.injEq, and_true] at hchars
  obtain ⟨e1, e2, e3, e4, -, e5, e6, -, e7, e8⟩ := hchars
  have hyy : y1 = y2 := by
    have hnd : natDigits y1.toNat = natDigits y2.toNat := by
      rw [hA1, hA2, e1, e2, e3, e4]
    have := natDigits_inj _ _ hnd
    omega
  have hmm : m1 = m2 := by
    apply pad2_inj m1 m2 (by omega) (by omega)
    rw [hB1, hB2, e5, e6]
  have hdd : d1 = d2 := by
    apply pad2_inj d1 d2 (by omega) (by omega)
    rw [hC1, hC2, e7, e8]
  rw [hyy, hmm, hdd]

/-- Rendered dates in the supported range have the `YYYY-MM-DD` shape. -/
theorem isISOFormat_toISODate (z : ℤ) (ha : 0 ≤ z) (hb : z ≤ 2932896) :
    isISOFormat (toISODate z) = true := by
  have hmd := civil_mday_bounds z
  have hy := civil_year_bounds z ha hb
  rcases hc : civilFromDays z with ⟨y, m, d⟩
  rw [hc] at hmd hy
  simp only at hmd hy
  have hylen : (natDigits y.toNat).length = 4 := natDigits_len4 _ (by omega) (by omega)
  rcases len4_shape _ hylen with ⟨c1, c2, c3, c4, hy4⟩
  rcases len2_shape _ (pad2_length m (by omega) (by omega)) with ⟨p1, p2, hm2⟩
  rcases len2_shape _ (pad2_length d (by omega) (by omega)) with ⟨q1, q2, hd2⟩
  have hdigy := natDigits_all_digits y.toNat
  rw [hy4] at hdigy
  have hdigm := pad2_all_digits m (by omega)
  rw [hm2] at hdigm
  have hdigd := pad2_all_digits d (by omega)
  rw [hd2] at hdigd
  have hdata : (toISODate z).data = [c1, c2, c3, c4, '-', p1, p2, '-', q1, q2] := by
    show toISODateChars z = _
    simp only [toISODateChars, hc, intChars_nonneg y (by omega), hy4, hm2, hd2]
    rfl
  rw [isISOFormat, hdata]
  simp_all

/-! ### Assembling the date properties of the series -/

/-- Mapped ranges chain under a step relation. -/
theorem map_range_chain {α : Type} (R : α → α → Prop) (g : ℕ → α) (n : ℕ)
    (h : ∀ j, j + 1 < n → R (g j) (g (j + 1))) :
    List.Chain' R ((List.range n).map g) := by
  rw [List.chain'_map]
  cases n with
  | zero => simp
  | succ m =>
    rw [List.chain'_range_succ]
    intro i hi
    exact h i (by omega)

/-- Last element of a mapped range. -/
theorem map_range_getLast {α : Type} (g : ℕ → α) (n : ℕ) (h : 1 ≤ n) :
    ((List.range n).map g).getLast? = some (g (n - 1)) := by
  rw [List.getLast?_eq_getElem?]
  simp only [List.length_map, List.length_range]
  rw [List.getElem?_map, List.getElem?_range (by omega)]
  rfl

/-- A mapped range with an injective map has no duplicates. -/
theorem map_range_nodup {α : Type} (g : ℕ → α) (n : ℕ)
    (hinj : ∀ j1, j1 < n → ∀ j2, j2 < n → g j1 = g j2 → j1 = j2) :
    ((List.range n).map g).Nodup := by
  apply List.Nodup.map_on _ (List.nodup_range n)
  intro x hx y hy hxy
  exact hinj x (List.mem_range.mp hx) y (List.mem_range.mp hy) hxy

/-- Pointwise facts lift to mapped ranges. -/
theorem map_range_forall {α : Type} (P : α → Prop) (g : ℕ → α) (n : ℕ)
    (h : ∀ j, j < n → P (g j)) :
    List.Forall P ((List.range n).map g) := by
  rw [List.forall_iff_forall_mem]
  intro x hx
  rcases List.mem_map.mp hx with ⟨j, hj, rfl⟩
  exact h j (List.mem_range.mp hj)

/-- The dates the loop emits are the ISO renderings of consecutive day
numbers starting at `startDay + i`. -/
theorem genLoop_map_date (bm : ℚ → ℚ → ℚ) (rs : RandStream) (drift anchor : ℚ)
    (base startDay : ℤ) :
    ∀ fuel i st, (genLoop bm rs drift anchor base startDay fuel i st).map SeriesPoint.date
      = (List.range fuel).map fun j => toISODate (shiftDays startDay ((i + j : ℕ) : ℤ)) := by
  intro fuel
  induction fuel with
  | zero => intro i st; rfl
  | succ n ih =>
    intro i st
    rw [List.range_succ_eq_map]
    simp only [genLoop, List.map_cons, List.map_map]
    congr 1
    rw [ih]
    apply List.map_congr_left
    intro j hj
    simp only [Function.comp]
    congr 1
    simp only [shiftDays]
    omega

/-- C4: for positive `days` with the series window inside the day-number
range `[0, 2932896]` (1970-01-01 through 9999-12-31), the emitted dates are
the ISO renderings of `days` consecutive day numbers ending at `today`: the
last date is `today`, the dates are pairwise distinct, consecutive dates
render consecutive calendar days, and every date has the `YYYY-MM-DD`
shape. -/
theorem generate_dates (bm : ℚ → ℚ → ℚ) (rs : RandStream) (today days : ℤ)
    (h1 : 1 ≤ days) (h0 : 0 ≤ today - (days - 1)) (hV : today ≤ 2932896) :
    ((generateTradingSeries bm rs today days).map SeriesPoint.date
        = (List.range days.toNat).map fun (j : ℕ) => toISODate (today - (days - 1) + (j : ℤ)))
    ∧ ((generateTradingSeries bm rs today days).map SeriesPoint.date).getLast?
        = some (toISODate today)
    ∧ ((generateTradingSeries bm rs today days).map SeriesPoint.date).Nodup
    ∧ List.Chain' (fun a b => ∃ w : ℤ, a = toISODate w ∧ b = toISODate (w + 1))
        ((generateTradingSeries bm rs today days).map SeriesPoint.date)
    ∧ List.Forall (fun s => isISOFormat s = true)
        ((generateTradingSeries bm rs today days).map SeriesPoint.date) := by
  have hmap : (generateTradingSeries bm rs today days).map SeriesPoint.date
      = (List.range days.toNat).map fun (j : ℕ) => toISODate (today - (days - 1) + (j : ℤ)) := by
    simp only [generateTradingSeries]
    rw [genLoop_map_date]
    apply List.map_congr_left
    intro j hj
    congr 1
    simp only [shiftDays]
    push_cast
    ring
  have hn : (days.toNat : ℤ) = days := Int.toNat_of_nonneg (by omega)
  refine ⟨hmap, ?_, ?_, ?_, ?_⟩
  · rw [hmap, map_range_getLast _ _ (by omega)]
    have harg : today - (days - 1) + ((days.toNat - 1 : ℕ) : ℤ) = today := by omega
    show some (toISODate (today - (days - 1) + ((days.toNat - 1 : ℕ) : ℤ))) = _
    rw [harg]
  · rw [hmap]
    apply map_range_nodup
    intro j1 hj1 j2 hj2 heq
    have := toISODate_inj (today - (days - 1) + (j1 : ℤ)) (today - (days - 1) + (j2 : ℤ))
      (by omega) (by omega) (by omega) (by omega) heq
    omega
  · rw [hmap]
    apply map_range_chain
    intro j hjn
    refine ⟨today - (days - 1) + (j : ℤ), rfl, ?_⟩
    congr 1
    push_cast
    ring
  · rw [hmap]
    apply map_range_forall
    intro j hj
    exact isISOFormat_toISODate _ (by omega) (by omega)

/-- Witness for C4 at `today = 20737`, `days = 7`. -/
theorem generate_dates_witness :
    ((generateTradingSeries bmZero halfStream 20737 7).map SeriesPoint.date).getLast?
      = some (toISODate 20737) :=
  (generate_dates bmZero halfStream 20737 7 (by norm_num) (by norm_num) (by norm_num)).2.1

/-! ### The polling effect -/

/-- C9: under the idealised timer semantics, the mount effect of the
data-table client loads `/api/user/table` exactly at the times
`t0 + 30000 k` inside the mounted window `[t0, t]` (an immediate load at
mount plus one every 30000 ms), every load carries the abort signal, and
running the effect cleanup (on unmount or effect re-trigger) aborts the
controller, clears the interval and unsets the mounted flag. -/
theorem polling_spec (t0 t : ℕ) (h : t0 ≤ t) :
    (∀ x, x ∈ loadTimes dataTableEffectSetup t0 t ↔
      ∃ j, x = t0 + 30000 * j ∧ x ≤ t) ∧
    (∀ b, EffectAction.fetchTable b ∈ dataTableEffectSetup → b = true) ∧
    (∀ s : EffectObs, (runCleanup dataTableEffectCleanup s).aborted = true ∧
      (runCleanup dataTableEffectCleanup s).timerActive = false ∧
      (runCleanup dataTableEffectCleanup s).mounted = false) := by
  refine ⟨?_, ?_, ?_⟩
  · intro x
    simp only [loadTimes, dataTableEffectSetup, List.flatMap_cons, List.flatMap_nil,
      List.append_nil, List.mem_append, actionLoadTimes, List.mem_singleton,
      List.mem_map, List.mem_range]
    constructor
    · rintro (rfl | ⟨j, hj, rfl⟩)
      · exact ⟨0, by norm_num, h⟩
      · refine ⟨j + 1, rfl, ?_⟩
        have hmul := (Nat.le_div_iff_mul_le (by norm_num : 0 < 30000)).mp (by omega : j + 1 ≤ (t - t0) / 30000)
        omega
    · rintro ⟨j, rfl, hle⟩
      cases j with
      | zero => left; norm_num
      | succ k =>
        right
        refine ⟨k, ?_, rfl⟩
        have hmul : (k + 1) * 30000 ≤ t - t0 := by omega
        have := (Nat.le_div_iff_mul_le (by norm_num : 0 < 30000)).mpr hmul
        omega
  · intro b hb
    rcases List.mem_cons.mp hb with hb | hb
    · exact (EffectAction.fetchTable.injEq _ _).mp hb
    · rcases List.mem_cons.mp hb with hb | hb
      · exact EffectAction.noConfusion hb
      · exact absurd hb (List.not_mem_nil _)
  · intro s
    exact ⟨rfl, rfl, rfl⟩

/-- Witness for C9 at a mounted window of 90 seconds. -/
theorem polling_spec_witness :
    (runCleanup dataTableEffectCleanup ⟨true, false, true⟩).aborted = true ∧
    (runCleanup dataTableEffectCleanup ⟨true, false, true⟩).timerActive = false ∧
    (runCleanup dataTableEffectCleanup ⟨true, false, true⟩).mounted = false :=
  (polling_spec 0 90000 (by norm_num)).2.2 ⟨true, false, true⟩

end CMS
